import Mathlib

/-!
Verification development for the vector-indexed key/value memory store
(`demo1/postgresql.py`, class `PostgreSQLStore`) and the retrieval workflow
tools (`langgraph-mcp-project`: `tools/retriever.py`, `tools/multiply.py`,
`agents/agent.py`, `agents/grade.py`).

The PostgreSQL table `(namespace TEXT, key TEXT, value JSONB, embedding
VECTOR(1024), PRIMARY KEY (namespace, key))` is embedded as a list of rows.
JSONB values are embedded as an inductive JSON type; floating-point vector
components are embedded as rationals; the external embedding model
(`Embeddings.embed_query`) is an abstract function parameter, and the
database distance operator `<=>` is likewise an abstract parameter, since
none of the verified properties depend on actual distance values.
-/

namespace Store

/-- JSONB values (Python `Dict[str, Any]` contents are JSON-like). -/
inductive JsonVal where
  | str (s : String)
  | num (q : ℚ)
  | bool (b : Bool)
  | null
  | arr (elems : List JsonVal)
  | obj (fields : List (String × JsonVal))

/-- A stored `value`: a JSON object, i.e. an association list of fields
(Python dicts have unique keys; lookup finds the first binding). -/
abbrev Value := List (String × JsonVal)

/-- One row of the store table. `ns` is the flat scope string column
`namespace` (a Lean keyword), produced by `"/".join(namespace)`. -/
structure Row where
  ns : String
  key : String
  value : Value
  embedding : Option (List ℚ)

/-- The table contents, in physical row order. -/
abbrev Table := List Row

/-- Store configuration: `self._index` with an `"embed"` entry present, or
not. `embed = some e` models `self._index and "embed" in self._index`
being true with embedder `e`. -/
structure Config where
  embed : Option (String → List ℚ)

/-- `"/".join(namespace)` — the scope string computed before every query. -/
def joinNamespace (tuple : List String) : String :=
  String.intercalate "/" tuple

/-- The embedding `put` attaches: computed iff an embedder is configured
and `value.get("data", "")` is a string (`isinstance(value.get("data", ""), str)`);
a missing `"data"` field defaults to `""`, which is a string. -/
def computeEmbedding (cfg : Config) (value : Value) : Option (List ℚ) :=
  match cfg.embed with
  | none => none
  | some embedder =>
    match (value.lookup "data").getD (JsonVal.str "") with
    | JsonVal.str d => some (embedder d)
    | _ => none

/-- `INSERT ... ON CONFLICT (namespace, key) DO UPDATE SET value = ...,
embedding = ...`: replace the row holding the primary key if present,
otherwise append. -/
def upsert (row : Row) : Table → Table
  | [] => [row]
  | r :: rest =>
    if r.ns = row.ns ∧ r.key = row.key then row :: rest
    else r :: upsert row rest

/-- `PostgreSQLStore.put` (success path, lines 98-133). -/
def put (cfg : Config) (s : Table) (tuple : List String) (key : String)
    (value : Value) : Table :=
  upsert ⟨joinNamespace tuple, key, value, computeEmbedding cfg value⟩ s

/-- `PostgreSQLStore.get` (lines 74-96): `SELECT value ... WHERE namespace
= %s AND key = %s`, `fetchone`. -/
def get (s : Table) (tuple : List String) (key : String) : Option Value :=
  (s.find? fun r => r.ns = joinNamespace tuple ∧ r.key = key).map (·.value)

/-- `PostgreSQLStore.delete` (lines 207-228): `DELETE ... WHERE namespace
= %s AND key = %s`. -/
def deleteRow (s : Table) (tuple : List String) (key : String) : Table :=
  s.filter fun r => ¬(r.ns = joinNamespace tuple ∧ r.key = key)

/-- One similarity-search hit: `{"id": key, "value": value, "metadata":
{"distance": distance}}`. -/
structure SearchResult where
  id : String
  value : Value
  distance : ℚ

/-- Insert into a list sorted by ascending distance. -/
def insertByDist (a : SearchResult) : List SearchResult → List SearchResult
  | [] => [a]
  | x :: xs => if a.distance ≤ x.distance then a :: x :: xs else x :: insertByDist a xs

/-- `ORDER BY distance` (ascending), as a stable insertion sort. -/
def sortByDist : List SearchResult → List SearchResult
  | [] => []
  | x :: xs => insertByDist x (sortByDist xs)

/-- `PostgreSQLStore.search` (lines 230-277): returns `[]` with a warning
when no embedder is configured; otherwise embeds the query and runs
`SELECT key, value, embedding <=> qvec AS distance ... WHERE namespace =
%s AND embedding IS NOT NULL ORDER BY distance LIMIT %s`. `dist` is the
database's `<=>` operator, abstract here. -/
def search (dist : List ℚ → List ℚ → ℚ) (cfg : Config) (s : Table)
    (tuple : List String) (query : String) (limit : Nat) : List SearchResult :=
  match cfg.embed with
  | none => []
  | some embedder =>
    let qe := embedder query
    let ns := joinNamespace tuple
    let rows := s.filter fun r => r.ns = ns ∧ r.embedding ≠ none
    let scored := rows.map fun r =>
      ⟨r.key, r.value, dist (r.embedding.getD []) qe⟩
    (sortByDist scored).take limit

/-- Python truthiness of the optional namespace tuple in `clear`:
`None` and the empty tuple are falsy. -/
def truthy : Option (List String) → Bool
  | none => false
  | some l => !l.isEmpty

/-- `PostgreSQLStore.clear` (lines 279-303): `if namespace: DELETE ...
WHERE namespace = %s  else: TRUNCATE TABLE`. -/
def clear (nsOpt : Option (List String)) (s : Table) : Table :=
  if truthy nsOpt then
    s.filter fun r => r.ns ≠ joinNamespace (nsOpt.getD [])
  else []

/-- The multiset of primary keys in the table. -/
def primaryKeys (s : Table) : List (String × String) :=
  s.map fun r => (r.ns, r.key)

/-- One element of the `ops` list given to `PostgreSQLStore.batch`: a dict
read back with `op.get("op")`, `op.get("namespace", tuple())`,
`op.get("key", "")`, `op.get("value", {})` (defaults applied here). -/
structure BatchOp where
  op : String
  tuple : List String
  key : String
  value : Value

/-- `PostgreSQLStore.batch` loop body (lines 144-185), executed over one
connection: each recognized op mutates the cursor state and appends its
result slot; an unrecognized `op_type` appends nothing. Returns the final
(pre-commit) state and the results in input order. -/
def batchGo (cfg : Config) (s : Table) : List BatchOp → Table × List (Option Value)
  | [] => (s, [])
  | op :: rest =>
    let ns := joinNamespace op.tuple
    if op.op = "get" then
      let v := (s.find? fun r => r.ns = ns ∧ r.key = op.key).map (·.value)
      let out := batchGo cfg s rest
      (out.1, v :: out.2)
    else if op.op = "put" then
      let s1 := upsert ⟨ns, op.key, op.value, computeEmbedding cfg op.value⟩ s
      let out := batchGo cfg s1 rest
      (out.1, none :: out.2)
    else if op.op = "delete" then
      let s1 := s.filter fun r => ¬(r.ns = ns ∧ r.key = op.key)
      let out := batchGo cfg s1 rest
      (out.1, none :: out.2)
    else
      batchGo cfg s rest

/-- `PostgreSQLStore.batch` (lines 135-197), success path: run all ops,
then `conn.commit()`. -/
def batch (cfg : Config) (s : Table) (ops : List BatchOp) :
    Table × List (Option Value) :=
  batchGo cfg s ops

/-!
Fault-injected runs. Every method opens its own connection and commits at
the end; the `except` clause of each write method calls `conn.rollback()`
and re-raises, so a failed write publishes nothing; `get` returns `None`
and `search` returns `[]` from their `except` clauses instead of raising.
The boolean `fault` (resp. the index `failAt` for `batch`) is the point at
which the database raises. Each run returns the durable table after the
call together with the call's outcome.
-/

/-- `put` under a fault: `except: conn.rollback(); raise`. -/
def putRun (cfg : Config) (fault : Bool) (s : Table) (tuple : List String)
    (key : String) (value : Value) : Table × Except Unit Unit :=
  if fault then (s, .error ()) else (put cfg s tuple key value, .ok ())

/-- `delete` under a fault: `except: conn.rollback(); raise`. -/
def deleteRun (fault : Bool) (s : Table) (tuple : List String)
    (key : String) : Table × Except Unit Unit :=
  if fault then (s, .error ()) else (deleteRow s tuple key, .ok ())

/-- `clear` under a fault: `except: conn.rollback(); raise`. -/
def clearRun (fault : Bool) (nsOpt : Option (List String)) (s : Table) :
    Table × Except Unit Unit :=
  if fault then (s, .error ()) else (clear nsOpt s, .ok ())

/-- `get` under a fault: `except: ...; return None` — no exception escapes. -/
def getRun (fault : Bool) (s : Table) (tuple : List String) (key : String) :
    Option Value :=
  if fault then none else get s tuple key

/-- `search` under a fault: `except: ...; return []` — no exception escapes. -/
def searchRun (dist : List ℚ → List ℚ → ℚ) (cfg : Config) (fault : Bool)
    (s : Table) (tuple : List String) (query : String) (limit : Nat) :
    List SearchResult :=
  if fault then [] else search dist cfg s tuple query limit

/-- `batch` under a fault oracle: ops execute in order against the pending
transaction state; if the cursor raises at op index `k` (`failAt = some k`,
`k` within range), `conn.rollback()` discards the whole pending state and
the committed table `s` survives unchanged; otherwise `conn.commit()`
publishes the final state. -/
def batchTxGo (cfg : Config) (committed : Table) (failAt : Option Nat) :
    Table → Nat → List BatchOp → Table × Except Unit (List (Option Value))
  | pending, _, [] => (pending, .ok [])
  | pending, i, op :: rest =>
    if failAt = some i then (committed, .error ())
    else
      let ns := joinNamespace op.tuple
      if op.op = "get" then
        let v := (pending.find? fun r => r.ns = ns ∧ r.key = op.key).map (·.value)
        match batchTxGo cfg committed failAt pending (i + 1) rest with
        | (t, .ok res) => (t, .ok (v :: res))
        | (t, .error e) => (t, .error e)
      else if op.op = "put" then
        let s1 := upsert ⟨ns, op.key, op.value, computeEmbedding cfg op.value⟩ pending
        match batchTxGo cfg committed failAt s1 (i + 1) rest with
        | (t, .ok res) => (t, .ok (none :: res))
        | (t, .error e) => (t, .error e)
      else if op.op = "delete" then
        let s1 := pending.filter fun r => ¬(r.ns = ns ∧ r.key = op.key)
        match batchTxGo cfg committed failAt s1 (i + 1) rest with
        | (t, .ok res) => (t, .ok (none :: res))
        | (t, .error e) => (t, .error e)
      else
        batchTxGo cfg committed failAt pending (i + 1) rest

/-- `batch` under a fault oracle, starting from committed table `s`. -/
def batchRun (cfg : Config) (failAt : Option Nat) (s : Table)
    (ops : List BatchOp) : Table × Except Unit (List (Option Value)) :=
  batchTxGo cfg s failAt s 0 ops

end Store

namespace Retriever

/-!
`langgraph-mcp-project/src/tools/retriever.py`, class `PostgresRetriever`.
The `health_records` table: `(id TEXT PRIMARY KEY, content TEXT, metadata
JSONB, embedding VECTOR(dim))`. No namespace column.
-/

/-- One row of `health_records`. -/
structure Doc where
  id : String
  content : String
  metadata : Store.Value
  embedding : List ℚ

/-- The dimension-mismatch fix in `similarity_search` (lines 136-143):
zero-pad a short query embedding, truncate a long one, leave a matching
one alone. -/
def adjustEmbedding (vectorDim : Nat) (e : List ℚ) : List ℚ :=
  if e.length ≠ vectorDim then
    if e.length < vectorDim then e ++ List.replicate (vectorDim - e.length) 0
    else e.take vectorDim
  else e

/-- The vector actually sent to the database for a query: the fresh
embedding, adjusted to the configured dimension. -/
def queryVector (embed : String → List ℚ) (vectorDim : Nat) (query : String) :
    List ℚ :=
  adjustEmbedding vectorDim (embed query)

/-- One `similarity_search` hit: `id, content, metadata, 1 - (embedding
<=> qvec) as similarity`. -/
structure DocHit where
  id : String
  content : String
  metadata : Store.Value
  similarity : ℚ

/-- Insert into a list sorted by descending similarity. -/
def insertBySim (a : DocHit) : List DocHit → List DocHit
  | [] => [a]
  | x :: xs => if x.similarity ≤ a.similarity then a :: x :: xs else x :: insertBySim a xs

/-- `ORDER BY similarity DESC`, as a stable insertion sort. -/
def sortBySim : List DocHit → List DocHit
  | [] => []
  | x :: xs => insertBySim x (sortBySim xs)

/-- `PostgresRetriever.similarity_search` (lines 127-180): embed the query,
adjust its dimension, return `[]` when `COUNT(*)` is zero, otherwise rank
all rows by `1 - (embedding <=> qvec)` descending, `LIMIT top_k`. `dist`
is the database's `<=>` operator, abstract here. -/
def similaritySearch (embed : String → List ℚ) (dist : List ℚ → List ℚ → ℚ)
    (vectorDim : Nat) (docs : List Doc) (query : String) (topK : Nat) :
    List DocHit :=
  let qe := queryVector embed vectorDim query
  if docs.length = 0 then []
  else
    (sortBySim (docs.map fun d =>
      ⟨d.id, d.content, d.metadata, 1 - dist d.embedding qe⟩)).take topK

end Retriever

namespace Multiply

/-!
`langgraph-mcp-project/src/tools/multiply.py`, class `MultiplyTool`.
`extract_numbers` runs `re.findall(r'-?\d+(?:\.\d+)?', query)` and converts
each match with `float`; Python floats are embedded as rationals (every
matched decimal literal is exactly representable as a rational). `\d` is
taken as the ASCII digits 0-9.
-/

/-- Greedy match of `-?\d+(?:\.\d+)?` anchored at the head of `l`:
returns the matched characters and the remaining input, or `none` when the
regex does not match here. The fractional group needs a `.` followed by at
least one digit; a bare trailing `.` is not consumed. -/
def matchNumAt (l : List Char) : Option (List Char × List Char) :=
  let sign : List Char × List Char :=
    match l with
    | '-' :: t => (['-'], t)
    | _ => ([], l)
  let ds := sign.2.takeWhile Char.isDigit
  let l2 := sign.2.dropWhile Char.isDigit
  if ds.isEmpty then none
  else
    match l2 with
    | '.' :: t =>
      let fs := t.takeWhile Char.isDigit
      if fs.isEmpty then some (sign.1 ++ ds, l2)
      else some (sign.1 ++ ds ++ '.' :: fs, t.dropWhile Char.isDigit)
    | _ => some (sign.1 ++ ds, l2)

/-- `re.findall`: scan left to right, taking leftmost non-overlapping
matches; on failure advance one character. `fuel` bounds the scan (called
with the input length, which suffices since every step consumes input). -/
def findNumbersAux (fuel : Nat) (l : List Char) : List (List Char) :=
  match fuel, l with
  | 0, _ => []
  | _, [] => []
  | fuel + 1, c :: t =>
    match matchNumAt (c :: t) with
    | some (m, rest) => m :: findNumbersAux fuel rest
    | none => findNumbersAux fuel t

/-- Digits to a natural number, base 10. -/
def digitsToNat (ds : List Char) : Nat :=
  ds.foldl (fun a c => a * 10 + (c.toNat - 48)) 0

/-- `float(match)` on a string matched by `-?\d+(?:\.\d+)?`, as an exact
rational. -/
def parseRat (l : List Char) : ℚ :=
  let signed : ℚ × List Char :=
    match l with
    | '-' :: t => (-1, t)
    | _ => (1, l)
  let ds := signed.2.takeWhile Char.isDigit
  let rest := signed.2.dropWhile Char.isDigit
  match rest with
  | '.' :: fs => signed.1 * ((digitsToNat ds : ℚ) + (digitsToNat fs : ℚ) / (10 ^ fs.length))
  | _ => signed.1 * (digitsToNat ds : ℚ)

/-- `MultiplyTool.extract_numbers` (lines 10-18). -/
def extractNumbers (query : String) : List ℚ :=
  (findNumbersAux query.data.length query.data).map parseRat

/-- `MultiplyTool.invoke` (lines 20-57), reduced to its `raw_result`: `None`
when fewer than two numbers are found, otherwise the product of all of
them (`result = 1; for num in numbers: result *= num`). -/
def multiplyRawResult (query : String) : Option ℚ :=
  let numbers := extractNumbers query
  if numbers.length < 2 then none
  else some (numbers.foldl (· * ·) 1)

end Multiply

namespace Workflow

/-!
`langgraph-mcp-project/src/agents/agent.py` and `agents/grade.py`. The
language model is external: each step is a function of the model's reply
text (and the tool results already in the state).
-/

/-- Whether `needle` occurs as a contiguous substring of `hay` (Python
`in` on strings). -/
def strContains (hay needle : String) : Bool :=
  (List.range (hay.data.length + 1)).any fun i =>
    needle.data.isPrefixOf (hay.data.drop i)

/-- Python `str.lower()`, character by character (ASCII case mapping). -/
def pyLower (s : String) : String :=
  ⟨s.data.map Char.toLower⟩

/-- `agent` (agent.py lines 15-32): `tools_needed = "true" in
response.content.lower()`. -/
def agentToolsNeeded (replyContent : String) : Bool :=
  strContains (pyLower replyContent) "true"

/-- `grade_documents` (grade.py lines 14-50), reduced to its
`route_after_grade` output: with no tool results it returns `"generate"`
without calling the model; otherwise it returns `"generate"` iff
`"generate" in response.content.lower()`, else `"rewrite"`. -/
def gradeDocuments (multiplyResult retrieverResult : Option String)
    (replyContent : String) : String :=
  if multiplyResult = none ∧ retrieverResult = none then "generate"
  else if strContains (pyLower replyContent) "generate" then "generate"
  else "rewrite"

end Workflow

/-!
Concrete instances used by closed theorems: a store with no embedding
index, a store whose embedder maps every text to the vector `[1]`, and the
everywhere-zero distance operator.
-/

namespace Store

/-- A store constructed with `index=None`. -/
def cfgNone : Config := ⟨none⟩

/-- An embedder mapping every text to the one-dimensional vector `[1]`. -/
def embedOne : String → List ℚ := fun _ => [1]

/-- A store constructed with an embedding index using `embedOne`. -/
def cfgOne : Config := ⟨some embedOne⟩

/-- A distance operator that reports distance `0` for every pair. -/
def dist0 : List ℚ → List ℚ → ℚ := fun _ _ => 0

/-- A distance operator that observes the dimension of the query vector it
is handed: `0` when it has the store column's fixed dimension 1024
(`VECTOR(1024)` in `_setup_tables`), `1` otherwise. -/
def distDim : List ℚ → List ℚ → ℚ := fun _ q => if q.length = 1024 then 0 else 1

/-! Helper lemmas about the table operations. -/

theorem find?_upsert_self (ns key : String) (v : Value) (e : Option (List ℚ))
    (s : Table) :
    (upsert ⟨ns, key, v, e⟩ s).find? (fun r => r.ns = ns ∧ r.key = key) =
      some ⟨ns, key, v, e⟩ := by
  induction s with
  | nil =>
    simp [upsert, List.find?]
  | cons r rest ih =>
    by_cases h : r.ns = ns ∧ r.key = key
    · simp only [upsert]
      rw [if_pos (by exact h)]
      exact List.find?_cons_of_pos _ (by simp)
    · simp only [upsert]
      rw [if_neg (by exact h)]
      rw [List.find?_cons_of_neg _ (by simpa using h)]
      exact ih

/-- `get` immediately after `put` on the same namespace tuple and key. -/
theorem get_put (cfg : Config) (s : Table) (tuple : List String) (key : String)
    (value : Value) : get (put cfg s tuple key value) tuple key = some value := by
  unfold get put
  rw [find?_upsert_self (joinNamespace tuple) key value (computeEmbedding cfg value) s]
  rfl

theorem find?_upsert_of_ns_ne (ns0 key0 : String) (v : Value)
    (e : Option (List ℚ)) (s : Table) (ns k : String) (h : ns0 ≠ ns) :
    (upsert ⟨ns0, key0, v, e⟩ s).find? (fun r => r.ns = ns ∧ r.key = k) =
      s.find? (fun r => r.ns = ns ∧ r.key = k) := by
  induction s with
  | nil =>
    simp only [upsert]
    rw [List.find?_cons_of_neg _ (by simp only [decide_eq_true_eq, not_and]; exact fun hc => absurd hc h)]
  | cons r rest ih =>
    by_cases hm : r.ns = ns0 ∧ r.key = key0
    · simp only [upsert]
      rw [if_pos (by exact hm)]
      rw [List.find?_cons_of_neg _ (by simp only [decide_eq_true_eq, not_and]; exact fun hc => absurd hc h)]
      rw [List.find?_cons_of_neg _ (by simp only [decide_eq_true_eq, not_and]; exact fun hc => absurd (hm.1 ▸ hc) h)]
    · simp only [upsert]
      rw [if_neg (by exact hm)]
      by_cases hpr : r.ns = ns ∧ r.key = k
      · rw [List.find?_cons_of_pos _ (by simpa using hpr),
          List.find?_cons_of_pos _ (by simpa using hpr)]
      · rw [List.find?_cons_of_neg _ (by simpa using hpr),
          List.find?_cons_of_neg _ (by simpa using hpr)]
        exact ih

theorem filter_upsert_of_ns_ne (ns0 key0 : String) (v : Value)
    (e : Option (List ℚ)) (s : Table) (ns : String) (h : ns0 ≠ ns) :
    (upsert ⟨ns0, key0, v, e⟩ s).filter (fun r => r.ns = ns ∧ r.embedding ≠ none) =
      s.filter (fun r => r.ns = ns ∧ r.embedding ≠ none) := by
  induction s with
  | nil =>
    simp only [upsert]
    rw [List.filter_cons_of_neg (by simp only [decide_eq_true_eq, not_and]; exact fun hc => absurd hc h)]
  | cons r rest ih =>
    by_cases hm : r.ns = ns0 ∧ r.key = key0
    · simp only [upsert]
      rw [if_pos (by exact hm)]
      rw [List.filter_cons_of_neg (by simp only [decide_eq_true_eq, not_and]; exact fun hc => absurd hc h)]
      rw [List.filter_cons_of_neg (by simp only [decide_eq_true_eq, not_and]; exact fun hc => absurd (hm.1 ▸ hc) h)]
    · simp only [upsert]
      rw [if_neg (by exact hm)]
      by_cases hpr : r.ns = ns ∧ r.embedding ≠ none
      · rw [List.filter_cons_of_pos (by simpa using hpr),
          List.filter_cons_of_pos (by simpa using hpr), ih]
      · rw [List.filter_cons_of_neg (by simpa using hpr),
          List.filter_cons_of_neg (by simpa using hpr)]
        exact ih

theorem mem_insertByDist (a x : SearchResult) (l : List SearchResult) :
    a ∈ insertByDist x l ↔ a = x ∨ a ∈ l := by
  induction l with
  | nil => simp [insertByDist]
  | cons y ys ih =>
    by_cases h : x.distance ≤ y.distance
    · simp [insertByDist, h]
    · simp [insertByDist, h, ih]
      tauto

theorem mem_sortByDist (a : SearchResult) (l : List SearchResult) :
    a ∈ sortByDist l ↔ a ∈ l := by
  induction l with
  | nil => simp [sortByDist]
  | cons y ys ih => simp [sortByDist, mem_insertByDist, ih]

/-- Every search hit is produced from a row of the queried scope whose
embedding is not NULL. -/
theorem mem_search (dist : List ℚ → List ℚ → ℚ) (cfg : Config) (s : Table)
    (tuple : List String) (query : String) (limit : Nat) (hit : SearchResult)
    (h : hit ∈ search dist cfg s tuple query limit) :
    ∃ row ∈ s, row.ns = joinNamespace tuple ∧ row.embedding ≠ none ∧
      hit.id = row.key ∧ hit.value = row.value := by
  unfold search at h
  cases hcfg : cfg.embed with
  | none => rw [hcfg] at h; simp at h
  | some embedder =>
    rw [hcfg] at h
    simp only at h
    have h2 := List.take_subset _ _ h
    rw [mem_sortByDist] at h2
    simp only [List.mem_map, List.mem_filter] at h2
    obtain ⟨row, ⟨hrow, hpred⟩, heq⟩ := h2
    simp only [decide_eq_true_eq] at hpred
    exact ⟨row, hrow, hpred.1, hpred.2, by rw [← heq], by rw [← heq]⟩

/-- With an embedder configured, every search hit's distance is computed
by the `<=>` operator from the stored row embedding and the raw fresh
query embedding `embedder query` — no dimension adjustment intervenes. -/
theorem mem_search_embed (dist : List ℚ → List ℚ → ℚ)
    (embedder : String → List ℚ) (s : Table) (tuple : List String)
    (query : String) (limit : Nat) (hit : SearchResult)
    (h : hit ∈ search dist ⟨some embedder⟩ s tuple query limit) :
    ∃ row ∈ s, row.ns = joinNamespace tuple ∧ row.embedding ≠ none ∧
      hit.id = row.key ∧ hit.value = row.value ∧
      hit.distance = dist (row.embedding.getD []) (embedder query) := by
  unfold search at h
  simp only at h
  have h2 := List.take_subset _ _ h
  rw [mem_sortByDist] at h2
  simp only [List.mem_map, List.mem_filter] at h2
  obtain ⟨row, ⟨hrow, hpred⟩, heq⟩ := h2
  simp only [decide_eq_true_eq] at hpred
  exact ⟨row, hrow, hpred.1, hpred.2, by rw [← heq], by rw [← heq], by rw [← heq]⟩

theorem mem_primaryKeys_upsert (row : Row) (s : Table) (x : String × String)
    (h : x ∈ primaryKeys (upsert row s)) :
    x ∈ primaryKeys s ∨ x = (row.ns, row.key) := by
  induction s with
  | nil => simp [upsert, primaryKeys] at h; simp [h]
  | cons r rest ih =>
    by_cases hm : r.ns = row.ns ∧ r.key = row.key
    · simp only [upsert, if_pos hm, primaryKeys, List.map_cons, List.mem_cons] at h ⊢
      tauto
    · simp only [upsert, if_neg hm, primaryKeys, List.map_cons, List.mem_cons] at h ⊢
      rcases h with h | h
      · tauto
      · rcases ih h with h2 | h2 <;> tauto

theorem nodup_primaryKeys_upsert (row : Row) (s : Table)
    (h : (primaryKeys s).Nodup) : (primaryKeys (upsert row s)).Nodup := by
  induction s with
  | nil => simp [upsert, primaryKeys]
  | cons r rest ih =>
    simp only [primaryKeys, List.map_cons, List.nodup_cons] at h
    by_cases hm : r.ns = row.ns ∧ r.key = row.key
    · simp only [upsert, if_pos hm, primaryKeys, List.map_cons, List.nodup_cons]
      refine ⟨?_, h.2⟩
      rw [← hm.1, ← hm.2]
      exact h.1
    · simp only [upsert, if_neg hm, primaryKeys, List.map_cons, List.nodup_cons]
      refine ⟨?_, ih h.2⟩
      intro hmem
      rcases mem_primaryKeys_upsert row rest _ hmem with h2 | h2
      · exact h.1 h2
      · rw [Prod.ext_iff] at h2
        exact hm ⟨h2.1, h2.2⟩

/-- In a table with no duplicate primary keys, any member of `upsert row s`
holding `row`'s primary key is `row` itself. -/
theorem mem_upsert_pk (row x : Row) (s : Table)
    (hnd : (primaryKeys s).Nodup) (hx : x ∈ upsert row s)
    (hns : x.ns = row.ns) (hkey : x.key = row.key) : x = row := by
  induction s with
  | nil => simpa [upsert] using hx
  | cons r rest ih =>
    simp only [primaryKeys, List.map_cons, List.nodup_cons] at hnd
    by_cases hm : r.ns = row.ns ∧ r.key = row.key
    · simp only [upsert, if_pos hm, List.mem_cons] at hx
      rcases hx with hx | hx
      · exact hx
      · exfalso
        apply hnd.1
        rw [hm.1, hm.2, ← hns, ← hkey]
        exact List.mem_map_of_mem (fun r => (r.ns, r.key)) hx
    · simp only [upsert, if_neg hm, List.mem_cons] at hx
      rcases hx with hx | hx
      · exact absurd ⟨hx ▸ hns, hx ▸ hkey⟩ hm
      · exact ih hnd.2 hx

end Store

/-- C1 counterexample: the claim fails as stated. The namespace tuples
`("a", "b")` and `("a/b",)` are different, yet both join to the scope
string `"a/b"`, so a record put under the first is returned by `get`
under the second. -/
theorem C1_counterexample :
    (["a", "b"] : List String) ≠ ["a/b"] ∧
    Store.get (Store.put Store.cfgNone [] ["a", "b"] "k"
        [("data", Store.JsonVal.str "v")]) ["a/b"] "k" =
      some [("data", Store.JsonVal.str "v")] :=
  ⟨by decide, rfl⟩

/-- C1 (amended): namespace isolation holds between any two namespace
tuples whose joined scope strings differ — a `put` under tuple `A` changes
neither `get` nor `search` observed under tuple `B` (in particular it never
overwrites a record of `B`, and its record is never returned under `B`). -/
theorem C1_namespace_isolation (dist : List ℚ → List ℚ → ℚ)
    (cfg : Store.Config) (s : Store.Table) (A B : List String)
    (k k2 q : String) (v : Store.Value) (lim : Nat)
    (h : Store.joinNamespace A ≠ Store.joinNamespace B) :
    Store.get (Store.put cfg s A k v) B k2 = Store.get s B k2 ∧
    Store.search dist cfg (Store.put cfg s A k v) B q lim =
      Store.search dist cfg s B q lim := by
  constructor
  · unfold Store.get Store.put
    rw [Store.find?_upsert_of_ns_ne _ _ _ _ _ _ _ h]
  · cases hcfg : cfg.embed with
    | none => simp [Store.search, hcfg]
    | some embedder =>
      simp only [Store.search, Store.put, hcfg]
      rw [Store.filter_upsert_of_ns_ne _ _ _ _ _ _ h]

/-- C1 witness. -/
theorem C1_namespace_isolation_witness :
    Store.joinNamespace ["a"] ≠ Store.joinNamespace ["b"] ∧
    (Store.get (Store.put Store.cfgNone [] ["a"] "k" []) ["b"] "k" =
        Store.get [] ["b"] "k" ∧
      Store.search Store.dist0 Store.cfgNone
          (Store.put Store.cfgNone [] ["a"] "k" []) ["b"] "q" 5 =
        Store.search Store.dist0 Store.cfgNone [] ["b"] "q" 5) :=
  ⟨by decide,
    C1_namespace_isolation Store.dist0 Store.cfgNone [] ["a"] ["b"] "k" "k" "q" [] 5
      (by decide)⟩

/-- C2: `get` after `put` returns the value just written; a second `put`
to the same key replaces the value; and `put` (as an upsert) preserves the
invariant that the table holds at most one live record per
(namespace, key). -/
theorem C2_roundtrip (cfg : Store.Config) (s : Store.Table)
    (tuple : List String) (key : String) (v v2 : Store.Value) :
    Store.get (Store.put cfg s tuple key v) tuple key = some v ∧
    Store.get (Store.put cfg (Store.put cfg s tuple key v) tuple key v2)
      tuple key = some v2 ∧
    ((Store.primaryKeys s).Nodup →
      (Store.primaryKeys (Store.put cfg s tuple key v)).Nodup) :=
  ⟨Store.get_put cfg s tuple key v,
    Store.get_put cfg (Store.put cfg s tuple key v) tuple key v2,
    fun h => Store.nodup_primaryKeys_upsert _ s h⟩

/-- C2 witness. -/
theorem C2_roundtrip_witness :
    (Store.primaryKeys []).Nodup ∧
    (Store.get (Store.put Store.cfgNone [] ["n"] "k" []) ["n"] "k" = some [] ∧
      Store.get (Store.put Store.cfgNone (Store.put Store.cfgNone [] ["n"] "k" [])
          ["n"] "k" [("data", Store.JsonVal.null)]) ["n"] "k" =
        some [("data", Store.JsonVal.null)] ∧
      ((Store.primaryKeys []).Nodup →
        (Store.primaryKeys (Store.put Store.cfgNone [] ["n"] "k" [])).Nodup)) :=
  ⟨List.nodup_nil,
    C2_roundtrip Store.cfgNone [] ["n"] "k" [] [("data", Store.JsonVal.null)]⟩

/-- C5: `search` returns an empty list — not an error — when no embedder
is configured, when the store is empty, and when the namespace has zero
rows; likewise the document retriever's `similarity_search` returns an
empty list on an empty corpus. -/
theorem C5_search_empty (dist : List ℚ → List ℚ → ℚ) (cfg : Store.Config)
    (s : Store.Table) (tuple : List String) (q : String) (lim : Nat)
    (embed : String → List ℚ) (dim topK : Nat) :
    (cfg.embed = none → Store.search dist cfg s tuple q lim = []) ∧
    Store.search dist cfg [] tuple q lim = [] ∧
    ((∀ r ∈ s, r.ns ≠ Store.joinNamespace tuple) →
      Store.search dist cfg s tuple q lim = []) ∧
    Retriever.similaritySearch embed dist dim [] q topK = [] := by
  refine ⟨fun h => ?_, ?_, fun h => ?_, rfl⟩
  · simp [Store.search, h]
  · cases hcfg : cfg.embed with
    | none => simp [Store.search, hcfg]
    | some embedder => simp [Store.search, hcfg, Store.sortByDist]
  · cases hcfg : cfg.embed with
    | none => simp [Store.search, hcfg]
    | some embedder =>
      simp only [Store.search, hcfg]
      have hf : s.filter
          (fun r => r.ns = Store.joinNamespace tuple ∧ r.embedding ≠ none) = [] := by
        rw [List.filter_eq_nil_iff]
        intro a ha
        simp only [decide_eq_true_eq, not_and]
        intro hns
        exact absurd hns (h a ha)
      rw [hf]
      simp [Store.sortByDist]

/-- C5 witness. -/
theorem C5_search_empty_witness :
    Store.cfgNone.embed = none ∧
    (∀ r ∈ ([⟨"x", "k", [], none⟩] : Store.Table),
      r.ns ≠ Store.joinNamespace ["y"]) ∧
    (Store.search Store.dist0 Store.cfgNone [⟨"x", "k", [], none⟩] ["y"] "q" 5 = [] ∧
      Store.search Store.dist0 Store.cfgNone [] ["y"] "q" 5 = [] ∧
      Retriever.similaritySearch Store.embedOne Store.dist0 1 [] "q" 3 = []) := by
  have h := C5_search_empty Store.dist0 Store.cfgNone [⟨"x", "k", [], none⟩]
    ["y"] "q" 5 Store.embedOne 1 3
  exact ⟨rfl, by decide,
    h.1 rfl, (C5_search_empty Store.dist0 Store.cfgNone [] ["y"] "q" 5
      Store.embedOne 1 3).2.1, h.2.2.2⟩

/-- C6 counterexample: the claim fails for the namespace-scoped engine
`PostgreSQLStore.search`, whose column dimension is fixed at 1024
(`VECTOR(1024)` in `_setup_tables`). The freshly computed query embedding
`[1]` has length 1 ≠ 1024, yet `search` hands it to the `<=>` operator
unchanged: under `distDim` the reported distance is 1 (a vector of length
≠ 1024 arrived), whereas a zero-padded vector of length 1024 — which is
what the claimed adjustment would send — would give distance 0. -/
theorem C6_counterexample :
    (Store.embedOne "q").length ≠ 1024 ∧
    Store.search Store.distDim Store.cfgOne [⟨"u", "k", [], some [1]⟩]
      ["u"] "q" 5 = [⟨"k", [], 1⟩] ∧
    (Store.embedOne "q" ++
      List.replicate (1024 - (Store.embedOne "q").length) 0).length = 1024 :=
  ⟨by decide, rfl, by norm_num [Store.embedOne]⟩

/-- C6 (amended): only the document retriever's `similarity_search`
resolves a dimension mismatch between the fresh query embedding and the
configured vector dimension before querying — the vector it sends always
has the configured dimension, obtained by zero-padding a shorter
embedding, truncating a longer one, and passing a matching one through
unchanged; `PostgreSQLStore.search` performs no adjustment: every hit's
distance is computed by the database operator directly from the raw fresh
embedding of the query. -/
theorem C6_dimension_adjust (embed : String → List ℚ) (dim : Nat) (q : String)
    (dist : List ℚ → List ℚ → ℚ) (s : Store.Table) (tuple : List String)
    (lim : Nat) :
    (Retriever.queryVector embed dim q).length = dim ∧
    ((embed q).length < dim → Retriever.queryVector embed dim q =
      embed q ++ List.replicate (dim - (embed q).length) 0) ∧
    (dim < (embed q).length →
      Retriever.queryVector embed dim q = (embed q).take dim) ∧
    ((embed q).length = dim → Retriever.queryVector embed dim q = embed q) ∧
    (∀ hit ∈ Store.search dist ⟨some embed⟩ s tuple q lim,
      ∃ row ∈ s, row.ns = Store.joinNamespace tuple ∧
        hit.distance = dist (row.embedding.getD []) (embed q)) := by
  have main : (Retriever.queryVector embed dim q).length = dim ∧
      ((embed q).length < dim → Retriever.queryVector embed dim q =
        embed q ++ List.replicate (dim - (embed q).length) 0) ∧
      (dim < (embed q).length →
        Retriever.queryVector embed dim q = (embed q).take dim) ∧
      ((embed q).length = dim → Retriever.queryVector embed dim q = embed q) := by
    unfold Retriever.queryVector Retriever.adjustEmbedding
    rcases lt_trichotomy (embed q).length dim with hlt | heq | hgt
    · rw [if_pos (by omega), if_pos hlt]
      refine ⟨by simp; omega, fun _ => rfl, fun hc => absurd hc (by omega),
        fun hc => absurd hc (by omega)⟩
    · rw [if_neg (by omega)]
      exact ⟨heq, fun hc => absurd hc (by omega), fun hc => absurd hc (by omega),
        fun _ => rfl⟩
    · rw [if_pos (by omega), if_neg (by omega)]
      refine ⟨by simp; omega, fun hc => absurd hc (by omega), fun _ => rfl,
        fun hc => absurd hc (by omega)⟩
  refine ⟨main.1, main.2.1, main.2.2.1, main.2.2.2, fun hit hmem => ?_⟩
  obtain ⟨row, hrow, hns, -, -, -, hd⟩ :=
    Store.mem_search_embed dist embed s tuple q lim hit hmem
  exact ⟨row, hrow, hns, hd⟩

/-- C6 witness. -/
theorem C6_dimension_adjust_witness :
    (Store.embedOne "q").length < 3 ∧
    Retriever.queryVector Store.embedOne 3 "q" =
      Store.embedOne "q" ++ List.replicate (3 - (Store.embedOne "q").length) 0 :=
  ⟨by decide,
    (C6_dimension_adjust Store.embedOne 3 "q" Store.dist0 [] [] 5).2.1 (by decide)⟩

/-- C9: `clear` called with the empty namespace tuple behaves exactly like
`clear` with no namespace — the empty tuple is falsy, so the whole table
is truncated, removing every namespace's records; only a non-empty tuple
restricts the delete to that namespace's rows. -/
theorem C9_clear_empty_tuple (s : Store.Table) (tuple : List String) :
    Store.clear (some []) s = Store.clear none s ∧
    Store.clear (some []) s = [] ∧
    (tuple ≠ [] → Store.clear (some tuple) s =
      s.filter fun r => r.ns ≠ Store.joinNamespace tuple) := by
  refine ⟨rfl, rfl, fun h => ?_⟩
  unfold Store.clear
  rw [if_pos]
  · rfl
  · simp [Store.truthy, h]

/-- C9 witness. -/
theorem C9_clear_empty_tuple_witness :
    (["u"] : List String) ≠ [] ∧
    Store.clear (some ["u"]) [⟨"u", "k", [], none⟩] =
      List.filter (fun r => r.ns ≠ Store.joinNamespace ["u"]) [⟨"u", "k", [], none⟩] :=
  ⟨by decide, (C9_clear_empty_tuple [⟨"u", "k", [], none⟩] ["u"]).2.2 (by decide)⟩

namespace Store

theorem batchGo_length (cfg : Config) (ops : List BatchOp) :
    ∀ s : Table, (∀ op ∈ ops, op.op = "get" ∨ op.op = "put" ∨ op.op = "delete") →
      (batchGo cfg s ops).2.length = ops.length := by
  induction ops with
  | nil => intro s _; rfl
  | cons op0 rest ih =>
    intro s hops
    have hrest : ∀ op ∈ rest, op.op = "get" ∨ op.op = "put" ∨ op.op = "delete" :=
      fun op hop => hops op (List.mem_cons_of_mem _ hop)
    rcases hops op0 (List.mem_cons_self op0 rest) with hop | hop | hop
    · simp only [batchGo, if_pos hop, List.length_cons]
      rw [ih s hrest]
    · have hne : ¬(op0.op = "get") := by rw [hop]; decide
      simp only [batchGo, if_neg hne, if_pos hop, List.length_cons]
      rw [ih _ hrest]
    · have hne : ¬(op0.op = "get") := by rw [hop]; decide
      have hne2 : ¬(op0.op = "put") := by rw [hop]; decide
      simp only [batchGo, if_neg hne, if_neg hne2, if_pos hop, List.length_cons]
      rw [ih _ hrest]

theorem batchGo_slot (cfg : Config) (ops : List BatchOp) :
    ∀ (s : Table) (i : Nat) (op : BatchOp),
      (∀ o ∈ ops, o.op = "get" ∨ o.op = "put" ∨ o.op = "delete") →
      ops[i]? = some op →
      (batchGo cfg s ops).2[i]? =
        some (if op.op = "get"
          then get (batchGo cfg s (ops.take i)).1 op.tuple op.key
          else none) := by
  induction ops with
  | nil => intro s i op _ hfind; simp at hfind
  | cons op0 rest ih =>
    intro s i op hops hfind
    have hrest : ∀ o ∈ rest, o.op = "get" ∨ o.op = "put" ∨ o.op = "delete" :=
      fun o ho => hops o (List.mem_cons_of_mem _ ho)
    rcases hops op0 (List.mem_cons_self op0 rest) with hop | hop | hop
    · simp only [batchGo, if_pos hop]
      cases i with
      | zero =>
        simp only [List.getElem?_cons_zero, Option.some.injEq] at hfind
        subst hfind
        simp only [List.getElem?_cons_zero, List.take_zero, batchGo, if_pos hop,
          Option.some.injEq]
        rfl
      | succ i =>
        simp only [List.getElem?_cons_succ] at hfind
        simp only [List.getElem?_cons_succ, List.take_succ_cons, batchGo, if_pos hop]
        exact ih s i op hrest hfind
    · have hne : ¬(op0.op = "get") := by rw [hop]; decide
      simp only [batchGo, if_neg hne, if_pos hop]
      cases i with
      | zero =>
        simp only [List.getElem?_cons_zero, Option.some.injEq] at hfind
        subst hfind
        simp only [List.getElem?_cons_zero, Option.some.injEq, if_neg hne]
      | succ i =>
        simp only [List.getElem?_cons_succ] at hfind
        simp only [List.getElem?_cons_succ, List.take_succ_cons, batchGo, if_neg hne,
          if_pos hop]
        exact ih _ i op hrest hfind
    · have hne : ¬(op0.op = "get") := by rw [hop]; decide
      have hne2 : ¬(op0.op = "put") := by rw [hop]; decide
      simp only [batchGo, if_neg hne, if_neg hne2, if_pos hop]
      cases i with
      | zero =>
        simp only [List.getElem?_cons_zero, Option.some.injEq] at hfind
        subst hfind
        simp only [List.getElem?_cons_zero, Option.some.injEq, if_neg hne]
      | succ i =>
        simp only [List.getElem?_cons_succ] at hfind
        simp only [List.getElem?_cons_succ, List.take_succ_cons, batchGo, if_neg hne,
          if_neg hne2, if_pos hop]
        exact ih _ i op hrest hfind

theorem batchTxGo_fail (cfg : Config) (committed : Table) (k : Nat) :
    ∀ (ops : List BatchOp) (pending : Table) (i : Nat), i ≤ k → k < i + ops.length →
      batchTxGo cfg committed (some k) pending i ops = (committed, .error ()) := by
  intro ops
  induction ops with
  | nil => intro pending i h1 h2; simp at h2; omega
  | cons op0 rest ih =>
    intro pending i h1 h2
    by_cases hik : k = i
    · simp [batchTxGo, hik]
    · have hne : ¬((some k : Option Nat) = some i) := by simp [hik]
      have h1' : i + 1 ≤ k := by omega
      have h2' : k < (i + 1) + rest.length := by
        simp only [List.length_cons] at h2; omega
      by_cases hg : op0.op = "get"
      · simp only [batchTxGo, if_neg hne, if_pos hg]
        rw [ih pending (i + 1) h1' h2']
      · by_cases hp : op0.op = "put"
        · simp only [batchTxGo, if_neg hne, if_neg hg, if_pos hp]
          rw [ih _ (i + 1) h1' h2']
        · by_cases hd : op0.op = "delete"
          · simp only [batchTxGo, if_neg hne, if_neg hg, if_neg hp, if_pos hd]
            rw [ih _ (i + 1) h1' h2']
          · simp only [batchTxGo, if_neg hne, if_neg hg, if_neg hp, if_neg hd]
            exact ih pending (i + 1) h1' h2'

end Store

/-- C3: `batch` over get/put/delete operations returns exactly one result
slot per input operation, in input order: the value previously stored at
the point the operation executes for each get, and `None` for each put
and delete; in particular `batch([put(k1,v1), get(k1), delete(k1),
get(k1)])` on an empty store returns `[None, v1, None, None]`. -/
theorem C3_batch_results (cfg : Store.Config) (s : Store.Table)
    (ops : List Store.BatchOp)
    (hops : ∀ op ∈ ops, op.op = "get" ∨ op.op = "put" ∨ op.op = "delete") :
    (Store.batch cfg s ops).2.length = ops.length ∧
    (∀ (i : Nat) (op : Store.BatchOp), ops[i]? = some op →
      (Store.batch cfg s ops).2[i]? =
        some (if op.op = "get"
          then Store.get (Store.batchGo cfg s (ops.take i)).1 op.tuple op.key
          else none)) ∧
    (Store.batch Store.cfgNone []
        [⟨"put", ["n"], "k1", [("data", Store.JsonVal.str "v1")]⟩,
         ⟨"get", ["n"], "k1", []⟩,
         ⟨"delete", ["n"], "k1", []⟩,
         ⟨"get", ["n"], "k1", []⟩]).2 =
      [none, some [("data", Store.JsonVal.str "v1")], none, none] :=
  ⟨Store.batchGo_length cfg ops s hops,
    fun i op hfind => Store.batchGo_slot cfg ops s i op hops hfind,
    rfl⟩

/-- C3 witness. -/
theorem C3_batch_results_witness :
    (∀ op ∈ ([⟨"get", ["n"], "k", []⟩] : List Store.BatchOp),
      op.op = "get" ∨ op.op = "put" ∨ op.op = "delete") ∧
    (Store.batch Store.cfgNone [] [⟨"get", ["n"], "k", []⟩]).2.length =
      ([⟨"get", ["n"], "k", []⟩] : List Store.BatchOp).length :=
  ⟨by decide,
    (C3_batch_results Store.cfgNone [] [⟨"get", ["n"], "k", []⟩] (by decide)).1⟩

/-- C4: a failing write (put, delete, clear, or batch at any operation
index) rolls its transaction back — the durable table is unchanged — and
propagates the storage error; a failing get returns absent and a failing
search returns the empty list, raising nothing. -/
theorem C4_error_policy (dist : List ℚ → List ℚ → ℚ) (cfg : Store.Config)
    (s : Store.Table) (tuple : List String) (key q : String) (v : Store.Value)
    (nsOpt : Option (List String)) (lim : Nat) (ops : List Store.BatchOp) :
    Store.putRun cfg true s tuple key v = (s, .error ()) ∧
    Store.deleteRun true s tuple key = (s, .error ()) ∧
    Store.clearRun true nsOpt s = (s, .error ()) ∧
    (∀ k, k < ops.length → Store.batchRun cfg (some k) s ops = (s, .error ())) ∧
    Store.getRun true s tuple key = none ∧
    Store.searchRun dist cfg true s tuple q lim = [] :=
  ⟨rfl, rfl, rfl,
    fun k hk => Store.batchTxGo_fail cfg s k ops s 0 (Nat.zero_le k) (by omega),
    rfl, rfl⟩

/-- C4 witness. -/
theorem C4_error_policy_witness :
    0 < ([⟨"put", ["n"], "k", []⟩] : List Store.BatchOp).length ∧
    Store.batchRun Store.cfgNone (some 0) [] [⟨"put", ["n"], "k", []⟩] =
      ([], .error ()) :=
  ⟨by decide,
    (C4_error_policy Store.dist0 Store.cfgNone [] ["n"] "k" "q" [] none 5
      [⟨"put", ["n"], "k", []⟩]).2.2.2.1 0 (by decide)⟩

/-- C7 counterexample: the claim fails as stated for `grade_documents` —
when a tool produced output and the model reply does not contain the
keyword `"generate"`, the route taken is `"rewrite"`, not `"generate"`. -/
theorem C7_counterexample :
    Workflow.strContains (Workflow.pyLower "hmm") "generate" = false ∧
    Workflow.gradeDocuments (some "Multiplication: 12.0 * 7.0 = 84.0") none
      "hmm" = "rewrite" := by decide

/-- C7 (amended): decision parsing is total and never fails the workflow:
the agent step sets tools_needed to false when the reply does not contain
the substring "true"; `grade_documents` routes to "generate" when no tool
produced output, and routes to "rewrite" (the fallback branch of its
keyword match) when a tool produced output but the reply does not contain
"generate"; every reply yields one of the two routes. -/
theorem C7_decision_defaults (reply : String) (m r : Option String) :
    (Workflow.strContains (Workflow.pyLower reply) "true" = false →
      Workflow.agentToolsNeeded reply = false) ∧
    Workflow.gradeDocuments none none reply = "generate" ∧
    (¬(m = none ∧ r = none) →
      Workflow.strContains (Workflow.pyLower reply) "generate" = false →
      Workflow.gradeDocuments m r reply = "rewrite") ∧
    (Workflow.gradeDocuments m r reply = "generate" ∨
      Workflow.gradeDocuments m r reply = "rewrite") := by
  refine ⟨fun h => ?_, ?_, fun hm hg => ?_, ?_⟩
  · unfold Workflow.agentToolsNeeded
    exact h
  · unfold Workflow.gradeDocuments
    rw [if_pos ⟨rfl, rfl⟩]
  · unfold Workflow.gradeDocuments
    rw [if_neg hm, if_neg (by simp [hg])]
  · unfold Workflow.gradeDocuments
    split_ifs <;> simp

/-- C7 witness. -/
theorem C7_decision_defaults_witness :
    Workflow.strContains (Workflow.pyLower "ok") "true" = false ∧
    ¬((some "84" : Option String) = none ∧ (none : Option String) = none) ∧
    Workflow.strContains (Workflow.pyLower "ok") "generate" = false ∧
    (Workflow.agentToolsNeeded "ok" = false ∧
      Workflow.gradeDocuments (some "84") none "ok" = "rewrite") :=
  ⟨by decide, by decide, by decide,
    (C7_decision_defaults "ok" (some "84") none).1 (by decide),
    (C7_decision_defaults "ok" (some "84") none).2.2.1 (by decide) (by decide)⟩

/-- C8: the multiply tool extracts the decimal numbers occurring in the
query text; with fewer than two numbers its result is absent, otherwise it
is the product of all extracted numbers; the query "What is 12 times 7?"
yields 84. -/
theorem C8_multiply (q : String) :
    ((Multiply.extractNumbers q).length < 2 →
      Multiply.multiplyRawResult q = none) ∧
    (2 ≤ (Multiply.extractNumbers q).length →
      Multiply.multiplyRawResult q =
        some ((Multiply.extractNumbers q).foldl (· * ·) 1)) ∧
    Multiply.multiplyRawResult "What is 12 times 7?" = some 84 := by
  refine ⟨fun h => ?_, fun h => ?_, ?_⟩
  · simp only [Multiply.multiplyRawResult]
    rw [if_pos h]
  · simp only [Multiply.multiplyRawResult]
    rw [if_neg (by omega : ¬((Multiply.extractNumbers q).length < 2))]
  · have hn : Multiply.findNumbersAux "What is 12 times 7?".data.length
        "What is 12 times 7?".data = [['1', '2'], ['7']] := by decide
    have p1 : Multiply.parseRat ['1', '2'] = 1 * ((12 : ℕ) : ℚ) := rfl
    have p2 : Multiply.parseRat ['7'] = 1 * ((7 : ℕ) : ℚ) := rfl
    have hx : Multiply.extractNumbers "What is 12 times 7?" = [12, 7] := by
      simp only [Multiply.extractNumbers]
      rw [hn]
      simp [p1, p2]
    rw [show Multiply.multiplyRawResult "What is 12 times 7?" =
      (if (Multiply.extractNumbers "What is 12 times 7?").length < 2 then none
       else some ((Multiply.extractNumbers "What is 12 times 7?").foldl (· * ·) 1))
      from rfl, hx]
    norm_num [List.foldl]

/-- C8 witness. -/
theorem C8_multiply_witness :
    (Multiply.extractNumbers "no numbers here").length < 2 ∧
    Multiply.multiplyRawResult "no numbers here" = none :=
  ⟨by decide, (C8_multiply "no numbers here").1 (by decide)⟩

/-- C10 counterexample: the claim fails as stated — with an embedder
configured, a value with no "data" field at all (which therefore does not
hold a string in that field) is still stored with a non-NULL embedding,
because `value.get("data", "")` defaults to the empty string, which is a
string and gets embedded. -/
theorem C10_counterexample :
    List.lookup "data" ([] : Store.Value) = none ∧
    (Store.put Store.cfgOne [] ["u"] "k" []).map (·.embedding) = [some [1]] :=
  ⟨rfl, rfl⟩

/-- C10 (amended): `put` computes an embedding exactly when an embedder is
configured and the value's "data" field is absent (embedding the default
empty string) or holds a string; only a value whose "data" field holds a
non-string is stored with a NULL embedding, and such a record is returned
by `get` under its (namespace, key) but is never returned by `search`, for
every query and limit. -/
theorem C10_null_embedding (dist : List ℚ → List ℚ → ℚ) (cfg : Store.Config)
    (s : Store.Table) (tuple : List String) (key q : String)
    (v : Store.Value) (lim : Nat) :
    (cfg.embed = none → Store.computeEmbedding cfg v = none) ∧
    (∀ e, cfg.embed = some e → v.lookup "data" = none →
      Store.computeEmbedding cfg v = some (e "")) ∧
    (∀ e d, cfg.embed = some e →
      v.lookup "data" = some (Store.JsonVal.str d) →
      Store.computeEmbedding cfg v = some (e d)) ∧
    (∀ e x, cfg.embed = some e → v.lookup "data" = some x →
      (∀ d, x ≠ Store.JsonVal.str d) →
      Store.computeEmbedding cfg v = none) ∧
    (Store.computeEmbedding cfg v = none → (Store.primaryKeys s).Nodup →
      Store.get (Store.put cfg s tuple key v) tuple key = some v ∧
      ∀ hit ∈ Store.search dist cfg (Store.put cfg s tuple key v) tuple q lim,
        hit.id ≠ key) := by
  refine ⟨fun h => ?_, fun e he hd => ?_, fun e d he hd => ?_,
    fun e x he hd hx => ?_, fun hemb hnd => ⟨Store.get_put cfg s tuple key v, ?_⟩⟩
  · simp [Store.computeEmbedding, h]
  · simp [Store.computeEmbedding, he, hd]
  · simp [Store.computeEmbedding, he, hd]
  · cases x with
    | str s0 => exact absurd rfl (hx s0)
    | num m0 => simp [Store.computeEmbedding, he, hd]
    | bool b0 => simp [Store.computeEmbedding, he, hd]
    | null => simp [Store.computeEmbedding, he, hd]
    | arr l0 => simp [Store.computeEmbedding, he, hd]
    | obj f0 => simp [Store.computeEmbedding, he, hd]
  · intro hit hmem hid
    obtain ⟨row, hrow, hns, hemb2, hkey, -⟩ :=
      Store.mem_search dist cfg _ tuple q lim hit hmem
    have hrow2 : row = ⟨Store.joinNamespace tuple, key, v,
        Store.computeEmbedding cfg v⟩ := by
      apply Store.mem_upsert_pk _ _ _ hnd hrow
      · exact hns
      · rw [← hid, hkey]
    rw [hrow2, hemb] at hemb2
    exact hemb2 rfl

/-- C10 witness. -/
theorem C10_null_embedding_witness :
    Store.computeEmbedding Store.cfgOne [("data", Store.JsonVal.null)] = none ∧
    (Store.primaryKeys ([] : Store.Table)).Nodup ∧
    (Store.get (Store.put Store.cfgOne [] ["u"] "k"
        [("data", Store.JsonVal.null)]) ["u"] "k" =
        some [("data", Store.JsonVal.null)] ∧
      ∀ hit ∈ Store.search Store.dist0 Store.cfgOne
          (Store.put Store.cfgOne [] ["u"] "k" [("data", Store.JsonVal.null)])
          ["u"] "q" 5,
        hit.id ≠ "k") :=
  ⟨rfl, List.nodup_nil,
    (C10_null_embedding Store.dist0 Store.cfgOne [] ["u"] "k" "q"
      [("data", Store.JsonVal.null)] 5).2.2.2.2 rfl List.nodup_nil⟩

